import Mathlib

/-!
Shallow embedding of the SovelmaOS kernel core (capability table, WASM host
functions, RAM filesystem, sync primitives, cooperative executor) together
with proofs settling the specification claims.

Machine integers are modelled as `Nat` with explicit `% 2^w` at the places
where the Rust source casts; fallible operations return `Except`/`Option`.
-/

set_option autoImplicit false

namespace SovelmaOS

/-! ## Association-list model of `BTreeMap` (insert overwrites, keys unique) -/

def alistGet {α β : Type} [DecidableEq α] : List (α × β) → α → Option β
  | [], _ => none
  | (k, v) :: rest, q => if k = q then some v else alistGet rest q

def alistRemove {α β : Type} [DecidableEq α] : List (α × β) → α → List (α × β)
  | [], _ => []
  | (k, v) :: rest, q => if k = q then alistRemove rest q else (k, v) :: alistRemove rest q

def alistSet {α β : Type} [DecidableEq α] (l : List (α × β)) (k : α) (v : β) :
    List (α × β) :=
  alistRemove l k ++ [(k, v)]

theorem alistGet_append {α β : Type} [DecidableEq α] (l₁ l₂ : List (α × β)) (q : α) :
    alistGet (l₁ ++ l₂) q =
      match alistGet l₁ q with
      | some v => some v
      | none => alistGet l₂ q := by
  induction l₁ with
  | nil => simp [alistGet]
  | cons p rest ih =>
    by_cases h : p.1 = q <;> simp [alistGet, h, ih]

theorem alistGet_remove_self {α β : Type} [DecidableEq α] (l : List (α × β)) (q : α) :
    alistGet (alistRemove l q) q = none := by
  induction l with
  | nil => simp [alistRemove, alistGet]
  | cons p rest ih =>
    by_cases h : p.1 = q <;> simp [alistRemove, alistGet, h, ih]

theorem alistGet_remove_ne {α β : Type} [DecidableEq α] (l : List (α × β)) (q r : α)
    (h : q ≠ r) : alistGet (alistRemove l q) r = alistGet l r := by
  induction l with
  | nil => simp [alistRemove]
  | cons p rest ih =>
    by_cases hp : p.1 = q
    · have : p.1 ≠ r := by rw [hp]; exact h
      simp [alistRemove, alistGet, hp, this, ih, h]
    · simp only [alistRemove, if_neg hp, alistGet]
      by_cases hr : p.1 = r <;> simp [hr, ih]

theorem alistGet_set_self {α β : Type} [DecidableEq α] (l : List (α × β)) (k : α) (v : β) :
    alistGet (alistSet l k v) k = some v := by
  rw [alistSet, alistGet_append, alistGet_remove_self]
  simp [alistGet]

theorem alistGet_set_ne {α β : Type} [DecidableEq α] (l : List (α × β)) (k q : α) (v : β)
    (h : k ≠ q) : alistGet (alistSet l k v) q = alistGet l q := by
  rw [alistSet, alistGet_append, alistGet_remove_ne l k q h]
  cases hg : alistGet l q with
  | some w => simp
  | none => simp [alistGet, fun hh => h hh]

theorem alistRemove_of_not_mem {α β : Type} [DecidableEq α] (l : List (α × β)) (q : α)
    (h : alistGet l q = none) : alistRemove l q = l := by
  induction l with
  | nil => simp [alistRemove]
  | cons p rest ih =>
    simp only [alistGet] at h
    by_cases hp : p.1 = q
    · simp [hp] at h
    · simp only [alistRemove, if_neg hp]
      rw [if_neg hp] at h
      rw [ih h]

/-! ## Capability model — `src/common/src/capability.rs`

`CapabilityType` also carries the `Mutex`/`Semaphore` variants that the
kernel's host layer (`src/kernel/src/wasm/host.rs`) constructs and matches on.
-/

structure CapId where
  index : Nat
  generation : Nat
deriving DecidableEq, Repr

def CapId.from_u64 (v : Nat) : CapId :=
  { index := v % 2 ^ 32, generation := (v / 2 ^ 32) % 2 ^ 32 }

def CapId.as_u64 (c : CapId) : Nat :=
  c.generation * 2 ^ 32 + c.index

structure CapabilityRights where
  read : Bool
  write : Bool
  execute : Bool
  grant : Bool
  call : Bool
deriving DecidableEq, Repr

def CapabilityRights.NONE : CapabilityRights := ⟨false, false, false, false, false⟩

def CapabilityRights.READ : CapabilityRights := ⟨true, false, false, false, false⟩

def CapabilityRights.WRITE : CapabilityRights := ⟨false, true, false, false, false⟩

def CapabilityRights.CALL : CapabilityRights := ⟨false, false, false, false, true⟩

/-- Bitwise intersection of two rights sets (`&` on the bitflags). -/
def CapabilityRights.inter (a b : CapabilityRights) : CapabilityRights :=
  ⟨a.read && b.read, a.write && b.write, a.execute && b.execute,
   a.grant && b.grant, a.call && b.call⟩

/-- The `bitflags` `contains`: `self.bits & other.bits == other.bits`. -/
def CapabilityRights.contains (a b : CapabilityRights) : Bool :=
  a.inter b = b

/-- Raw `u32` bit pattern of the flags, as laid down in the source:
READ = 1, WRITE = 2, EXECUTE = 4, GRANT = 8, CALL = 16. -/
def CapabilityRights.bits (r : CapabilityRights) : Nat :=
  r.read.toNat + 2 * r.write.toNat + 4 * r.execute.toNat +
    8 * r.grant.toNat + 16 * r.call.toNat

inductive CapabilityType where
  | Memory (start size : Nat)
  | Serial (port : Nat)
  | Timer
  | Interrupt (irq : Nat)
  | Network (id : Nat)
  | Directory (handle : Nat)
  | File (handle : Nat)
  | Mutex (handle : Nat)
  | Semaphore (handle : Nat)
deriving DecidableEq, Repr

structure Capability where
  id : CapId
  rights : CapabilityRights
  object : CapabilityType
  generation : Nat
deriving DecidableEq, Repr

theorem contains_inter (p a : CapabilityRights) :
    p.contains (p.inter a) = true := by
  have hb : ∀ x y : Bool, (x && (x && y)) = (x && y) := by decide
  simp only [CapabilityRights.contains, CapabilityRights.inter, hb, decide_eq_true_eq]

theorem contains_READ_eq (r : CapabilityRights) :
    r.contains CapabilityRights.READ = r.read := by
  cases r with
  | mk a b c d e => cases a <;> cases b <;> cases c <;> cases d <;> cases e <;> rfl

theorem contains_WRITE_eq (r : CapabilityRights) :
    r.contains CapabilityRights.WRITE = r.write := by
  cases r with
  | mk a b c d e => cases a <;> cases b <;> cases c <;> cases d <;> cases e <;> rfl

theorem contains_CALL_eq (r : CapabilityRights) :
    r.contains CapabilityRights.CALL = r.call := by
  cases r with
  | mk a b c d e => cases a <;> cases b <;> cases c <;> cases d <;> cases e <;> rfl

/-! ## Host error codes and fuel — `src/kernel/src/wasm/host.rs` -/

def CAP_NOT_FOUND : Int := -1

def NO_MEMORY_EXPORT : Int := -2

def MEMORY_READ_FAILED : Int := -3

def INVALID_UTF8 : Int := -4

def PERMISSION_DENIED : Int := -5

def NOT_A_DIRECTORY : Int := -6

def FS_ERROR : Int := -7

def BUFFER_TOO_SMALL : Int := -8

def MEMORY_WRITE_FAILED : Int := -9

def NOT_A_FILE : Int := -10

def MUTEX_LOCKED : Int := -11

def SEM_NO_PERMITS : Int := -12

def INVALID_HANDLE : Int := -13

/-- Fuel cost of a capability lookup (`fuel_cost::CAP_LOOKUP`). -/
def CAP_LOOKUP_COST : Nat := 10

/-- Fuel cost of a filesystem operation (`fuel_cost::FS_OPERATION`). -/
def FS_OPERATION_COST : Nat := 100

/-- Fuel cost of memory read/write (`fuel_cost::MEMORY_IO` in the source). -/
def MEMORY_IO_COST : Nat := 50

/-- Minimum fuel threshold before yielding (`fuel_cost::YIELD_THRESHOLD`). -/
def YIELD_THRESHOLD : Nat := 500

/-- Fuel cost of creating a sync primitive (`fuel_cost::SYNC_CREATE`). -/
def SYNC_CREATE_COST : Nat := 50

/-- Fuel cost of a sync operation (`fuel_cost::SYNC_OPERATION`). -/
def SYNC_OPERATION_COST : Nat := 20

/-- Fuel units granted per scheduler time slice (`FUEL_PER_SLICE`, wasm/mod.rs). -/
def FUEL_PER_SLICE : Nat := 10000

inductive HostTrap where
  | Yield
  | Sleep (ms : Nat)
  | MutexWait (handle : Nat)
  | SemWait (handle : Nat)
deriving DecidableEq, Repr

/-- Per-process host state.  The Rust source allocates fresh capability
indices from a global atomic inside `Capability::new`; that counter is
modelled as the extra field `nextCapIndex`. -/
structure HostState where
  capabilities : List (CapId × Capability)
  fuel_remaining : Nat
  nextCapIndex : Nat
deriving DecidableEq, Repr

/-- Lookup that also enforces generation match (`HostState::get_capability`):
valid only if `cap.generation as u32 == id.generation()`. -/
def HostState.get_capability (st : HostState) (id : CapId) : Option Capability :=
  match alistGet st.capabilities id with
  | none => none
  | some cap => if cap.generation % 2 ^ 32 = id.generation then some cap else none

/-- Insert a freshly created capability (`Capability::new` + `add_capability`). -/
def HostState.add_capability_new (st : HostState) (object : CapabilityType)
    (rights : CapabilityRights) : HostState × CapId :=
  let id : CapId := { index := st.nextCapIndex % 2 ^ 32, generation := 0 }
  ({ st with
      capabilities := alistSet st.capabilities id
        { id := id, rights := rights, object := object, generation := 0 },
      nextCapIndex := st.nextCapIndex + 1 },
   id)

/-- Consume fuel (`HostState::consume_fuel`): saturating subtraction, then
report whether the remaining fuel is at least the yield threshold. -/
def HostState.consume_fuel (st : HostState) (cost : Nat) : HostState × Bool :=
  let f := st.fuel_remaining - cost
  ({ st with fuel_remaining := f }, decide (f ≥ YIELD_THRESHOLD))

/-- Check fuel and return a yield trap if exhausted (`check_fuel`). -/
def check_fuel (st : HostState) (cost : Nat) : Except HostTrap HostState :=
  let r := st.consume_fuel cost
  if r.2 then Except.ok r.1 else Except.error HostTrap.Yield

/-! ## RAM filesystem — `src/kernel/src/fs/mod.rs`, `src/kernel/src/fs/ramfs.rs`

Node names are `List Char`; guest paths arrive as `List Char` and are split
on the slash exactly as `path.split('/').filter(|s| !s.is_empty())` does.
Interior nodes are modelled by value; the `Arc<RwLock<_>>` aliasing between
the root tree and the open-handle table is not needed by any claim.
-/

inductive FsError where
  | NotFound
  | PermissionDenied
  | InvalidHandle
deriving DecidableEq, Repr

abbrev FsName := List Char

inductive Node where
  | file (content : List Nat)
  | dir (entries : List (FsName × Node))

/-- Lookup of a child in a directory entry map (`map.get(part)`). -/
def findEntry : List (FsName × Node) → FsName → Option Node
  | [], _ => none
  | (k, v) :: rest, q => if k = q then some v else findEntry rest q

/-- Insert into a directory entry map (`BTreeMap::insert`). -/
def setEntry : List (FsName × Node) → FsName → Node → List (FsName × Node)
  | [], q, n => [(q, n)]
  | (k, v) :: rest, q, n =>
    if k = q then (q, n) :: rest else (k, v) :: setEntry rest q n

/-- Split a path on slashes, discarding empty components. -/
def splitAux : List Char → List Char → List FsName
  | [], acc => [acc.reverse]
  | c :: rest, acc =>
    if c = '/' then acc.reverse :: splitAux rest [] else splitAux rest (c :: acc)

def splitPath (s : List Char) : List FsName :=
  (splitAux s []).filter (fun p => ¬ p = [])

/-- Step of the descent loop: read a directory entry, `NotFound` behaviour
is encoded by `none`. -/
def childOf (n : Node) (part : FsName) : Option Node :=
  match n with
  | Node.file _ => none
  | Node.dir entries => findEntry entries part

/-- The resolution loop shared by `resolve_path`/`open_at`: descend through
directories, failing when a component is missing or a non-directory is hit. -/
def resolveRel (parts : List FsName) (n : Node) : Option Node :=
  match parts with
  | [] => some n
  | p :: ps =>
    match childOf n p with
    | some next => resolveRel ps next
    | none => none

structure RamFs where
  root : Node
  handles : List (Nat × Node)
  nextHandle : Nat

/-- Open relative to a directory handle (`RamFs::open_at`).  The two atomic
handle counters of the source are modelled by the single `nextHandle`. -/
def RamFs.open_at (fs : RamFs) (base : Nat) (path : List Char) :
    Except FsError (RamFs × Nat) :=
  match alistGet fs.handles base with
  | none => Except.error FsError.InvalidHandle
  | some baseNode =>
    match resolveRel (splitPath path) baseNode with
    | none => Except.error FsError.NotFound
    | some node =>
      Except.ok
        ({ fs with
            handles := alistSet fs.handles fs.nextHandle node,
            nextHandle := fs.nextHandle + 1 },
         fs.nextHandle)

/-- Create the final path component as a directory under `n`
(the descent + insert part of `RamFs::mkdir_at`). -/
def Node.mkdirPath (parentParts : List FsName) (dirname : FsName) (n : Node) :
    Except FsError Node :=
  match parentParts with
  | [] =>
    match n with
    | Node.dir entries =>
      if (findEntry entries dirname).isSome then Except.error FsError.PermissionDenied
      else Except.ok (Node.dir (setEntry entries dirname (Node.dir [])))
    | Node.file _ => Except.error FsError.InvalidHandle
  | p :: ps =>
    match n with
    | Node.dir entries =>
      match findEntry entries p with
      | some child =>
        match Node.mkdirPath ps dirname child with
        | Except.ok child' => Except.ok (Node.dir (setEntry entries p child'))
        | Except.error e => Except.error e
      | none => Except.error FsError.NotFound
    | Node.file _ => Except.error FsError.NotFound

/-- Make a directory relative to a base handle (`RamFs::mkdir_at`).
`base = 0` addresses the root, as in the source. -/
def RamFs.mkdir_at (fs : RamFs) (base : Nat) (path : List Char) :
    Except FsError RamFs :=
  let parts := splitPath path
  match parts.getLast? with
  | none => Except.error FsError.PermissionDenied
  | some dirname =>
    let parentParts := parts.dropLast
    if base = 0 then
      match Node.mkdirPath parentParts dirname fs.root with
      | Except.ok root' => Except.ok { fs with root := root' }
      | Except.error e => Except.error e
    else
      match alistGet fs.handles base with
      | none => Except.error FsError.InvalidHandle
      | some baseNode =>
        match Node.mkdirPath parentParts dirname baseNode with
        | Except.ok node' =>
          Except.ok { fs with handles := alistSet fs.handles base node' }
        | Except.error e => Except.error e

/-- Read from an open file (`RamFs::read`).  The caller's buffer is a byte
list; the result carries the bytes-read count and the updated buffer
(`buffer[..n].copy_from_slice(&content[offset..end])`). -/
def RamFs.read (fs : RamFs) (handle : Nat) (buffer : List Nat) (offset : Nat) :
    Except FsError (Nat × List Nat) :=
  match alistGet fs.handles handle with
  | some (Node.file content) =>
    if offset ≥ content.length then Except.ok (0, buffer)
    else
      let endIdx := min (offset + buffer.length) content.length
      let bytesRead := endIdx - offset
      Except.ok (bytesRead, (content.drop offset).take bytesRead ++ buffer.drop bytesRead)
  | some (Node.dir _) => Except.error FsError.InvalidHandle
  | none => Except.error FsError.InvalidHandle

/-- Size of a node as reported by `RamFs::size`. -/
def Node.sizeOf : Node → Nat
  | Node.file content => content.length
  | Node.dir _ => 0

def RamFs.size (fs : RamFs) (handle : Nat) : Except FsError Nat :=
  match alistGet fs.handles handle with
  | some node => Except.ok node.sizeOf
  | none => Except.error FsError.InvalidHandle

def RamFs.is_dir (fs : RamFs) (handle : Nat) : Bool :=
  match alistGet fs.handles handle with
  | some (Node.dir _) => true
  | _ => false

def RamFs.close (fs : RamFs) (handle : Nat) : RamFs :=
  { fs with handles := alistRemove fs.handles handle }

/-! ## Async mutex and semaphore — `src/kernel/src/sync/mutex.rs`,
`src/kernel/src/sync/semaphore.rs`, `src/kernel/src/sync/registry.rs`

Waiters are waker identifiers.  The CAS loops of the source are modelled by
their single-threaded net effect.  A popped waker is returned to the caller
as the woken task (the executor-side effect of `Waker::wake`).
-/

structure MutexState where
  locked : Bool
  waiters : List Nat
deriving DecidableEq, Repr

/-- Attempt to acquire without blocking (`AsyncMutex::try_lock`): on success
the returned state has the lock held by the fresh guard. -/
def AsyncMutex.try_lock (m : MutexState) : Option MutexState :=
  if m.locked then none else some { m with locked := true }

/-- Effect of `AsyncMutexGuard::drop`: store `locked = false` and wake the
next waiter (`wake_next` pops one waker from the FIFO). -/
def AsyncMutexGuard.dropGuard (m : MutexState) : MutexState × Option Nat :=
  ({ locked := false, waiters := m.waiters.drop 1 }, m.waiters.head?)

structure Semaphore where
  permits : Nat
  max_permits : Nat
  waiters : List Nat
deriving DecidableEq, Repr

/-- `Semaphore::new`: the argument is both initial count and maximum. -/
def Semaphore.new (permits : Nat) : Semaphore :=
  { permits := permits, max_permits := permits, waiters := [] }

/-- `Semaphore::with_max`. -/
def Semaphore.with_max (initial max : Nat) : Semaphore :=
  { permits := initial, max_permits := max, waiters := [] }

/-- `Semaphore::try_acquire`: CAS-decrement when non-zero. -/
def Semaphore.try_acquire (s : Semaphore) : Bool × Semaphore :=
  if s.permits = 0 then (false, s) else (true, { s with permits := s.permits - 1 })

/-- `Semaphore::release`: increment capped at `max_permits`, then pop and
wake one waiter. -/
def Semaphore.release (s : Semaphore) : Semaphore × Option Nat :=
  ({ s with
      permits := min (s.permits + 1) s.max_permits,
      waiters := s.waiters.drop 1 },
   s.waiters.head?)

structure MutexRegistry where
  entries : List (Nat × MutexState)
  nextId : Nat
deriving DecidableEq, Repr

structure SemRegistry where
  entries : List (Nat × Semaphore)
  nextId : Nat
deriving DecidableEq, Repr

/-- `registry::create_mutex`. -/
def create_mutex (reg : MutexRegistry) : MutexRegistry × Nat :=
  ({ entries := alistSet reg.entries reg.nextId { locked := false, waiters := [] },
     nextId := reg.nextId + 1 },
   reg.nextId)

/-- `registry::create_semaphore`. -/
def create_semaphore (reg : SemRegistry) (permits : Nat) : SemRegistry × Nat :=
  ({ entries := alistSet reg.entries reg.nextId (Semaphore.new permits),
     nextId := reg.nextId + 1 },
   reg.nextId)

/-! ## Guest linear memory and integer reinterpretation -/

/-- Guest linear memory as a byte list; `wasmi` writes fail exactly when the
target range is out of bounds. -/
abbrev GuestMem := List Nat

def spliceAt (mem : GuestMem) (off : Nat) (seg : List Nat) : GuestMem :=
  mem.take off ++ seg ++ mem.drop (off + seg.length)

def memWrite (mem : GuestMem) (off : Nat) (bytes : List Nat) : Option GuestMem :=
  if off + bytes.length ≤ mem.length then some (spliceAt mem off bytes) else none

/-- Little-endian byte encoding, `n` bytes wide (`to_le_bytes`). -/
def leBytes (n v : Nat) : List Nat :=
  (List.range n).map (fun i => v / 256 ^ i % 256)

/-- Reinterpretation of an unsigned value as `i32` (`as i32`). -/
def toI32 (n : Nat) : Int :=
  if n % 2 ^ 32 < 2 ^ 31 then ((n % 2 ^ 32 : Nat) : Int)
  else ((n % 2 ^ 32 : Nat) : Int) - 2 ^ 32

/-- Reinterpretation of an unsigned value as `i64` (`as i64`). -/
def toI64 (n : Nat) : Int :=
  if n % 2 ^ 64 < 2 ^ 63 then ((n % 2 ^ 64 : Nat) : Int)
  else ((n % 2 ^ 64 : Nat) : Int) - 2 ^ 64

/-! ## Host functions — `src/kernel/src/wasm/host.rs`

The memory-export lookup and the path marshalling (guest memory read and
UTF-8 decoding) are modelled as already successful: every claim below
conditions on a successfully decoded path, so the `−2/−3/−4` early returns
are outside the modelled inputs.  Where a host function's source writes into
guest memory, the model threads an explicit `GuestMem`.
-/

/-- Type tag written by `sp_get_capabilities` for each capability object. -/
def typeTag : CapabilityType → Nat
  | CapabilityType.File _ => 0
  | CapabilityType.Directory _ => 1
  | CapabilityType.Mutex _ => 2
  | CapabilityType.Semaphore _ => 3
  | _ => 255

/-- One packed record `{id: u64, type: u32, rights: u32}`, 16 bytes. -/
def capRecord (cap : Capability) : List Nat :=
  leBytes 8 cap.id.as_u64 ++ leBytes 4 (typeTag cap.object) ++ leBytes 4 cap.rights.bits

/-- The three field writes (`id`, `type`, `rights`) of one loop iteration
of `sp_get_capabilities`. -/
def writeRecord (mem : GuestMem) (off : Nat) (cap : Capability) : Option GuestMem :=
  match memWrite mem off (leBytes 8 cap.id.as_u64) with
  | none => none
  | some m1 =>
    match memWrite m1 (off + 8) (leBytes 4 (typeTag cap.object)) with
    | none => none
    | some m2 => memWrite m2 (off + 12) (leBytes 4 cap.rights.bits)

/-- The marshalling loop of `sp_get_capabilities`: one 16-byte record per
capability.  A bounds failure yields `none` (`MEMORY_WRITE_FAILED` at the
call site). -/
def writeCaps (mem : GuestMem) (off : Nat) : List Capability → Option GuestMem
  | [] => some mem
  | cap :: rest =>
    match writeRecord mem off cap with
    | none => none
    | some m3 => writeCaps m3 (off + 16) rest

/-- Host function `sp_get_capabilities(ptr, len)`.  `len` is the guest `i32`
reinterpreted as `usize`. -/
def sp_get_capabilities (st : HostState) (mem : GuestMem) (ptr len : Nat) :
    Except HostTrap (Int × HostState × GuestMem) :=
  match check_fuel st CAP_LOOKUP_COST with
  | Except.error t => Except.error t
  | Except.ok st =>
    let caps := st.capabilities.map (fun p => p.2)
    let count := caps.length
    let requiredLen := count * 16
    if len < requiredLen then Except.ok (BUFFER_TOO_SMALL, st, mem)
    else
      match check_fuel st (MEMORY_IO_COST * count) with
      | Except.error t => Except.error t
      | Except.ok st =>
        match writeCaps mem ptr caps with
        | some mem' => Except.ok (toI32 count, st, mem')
        | none => Except.ok (MEMORY_WRITE_FAILED, st, mem)

/-- Bitwise union of two rights sets (`|` on the bitflags). -/
def CapabilityRights.union (a b : CapabilityRights) : CapabilityRights :=
  ⟨a.read || b.read, a.write || b.write, a.execute || b.execute,
   a.grant || b.grant, a.call || b.call⟩

def CapabilityRights.EXECUTE : CapabilityRights := ⟨false, false, true, false, false⟩

def CapabilityRights.GRANT : CapabilityRights := ⟨false, false, false, true, false⟩

/-- Applicable rights chosen by `sp_fs_open` for the opened node's type:
`READ|WRITE|EXECUTE|GRANT` for a directory, `READ|WRITE` for a file. -/
def applicable_rights (isDir : Bool) : CapabilityRights :=
  if isDir then
    (((CapabilityRights.READ.union CapabilityRights.WRITE).union
        CapabilityRights.EXECUTE).union CapabilityRights.GRANT)
  else CapabilityRights.READ.union CapabilityRights.WRITE

/-- Host function `sp_fs_open(dir_cap, path_ptr, path_len)`; `path` is the
already-decoded path string. -/
def sp_fs_open (st : HostState) (fs : RamFs) (dirCap : Nat) (path : List Char) :
    Except HostTrap (Int × HostState × RamFs) :=
  match check_fuel st FS_OPERATION_COST with
  | Except.error t => Except.error t
  | Except.ok st =>
    let capId := CapId.from_u64 dirCap
    match st.get_capability capId with
    | none => Except.ok (CAP_NOT_FOUND, st, fs)
    | some cap =>
      match cap.object with
      | CapabilityType.Directory handleVal =>
        if cap.rights.contains CapabilityRights.READ then
          match fs.open_at (handleVal % 2 ^ 32) path with
          | Except.error _ => Except.ok (FS_ERROR, st, fs)
          | Except.ok (fs', newHandle) =>
            let isDir := fs'.is_dir newHandle
            let capType :=
              if isDir then CapabilityType.Directory newHandle
              else CapabilityType.File newHandle
            let derivedRights := cap.rights.inter (applicable_rights isDir)
            let r := st.add_capability_new capType derivedRights
            Except.ok (toI64 r.2.as_u64, r.1, fs')
        else Except.ok (PERMISSION_DENIED, st, fs)
      | _ => Except.ok (NOT_A_DIRECTORY, st, fs)

/-- Host function `sp_fs_read(file_cap, buf_ptr, buf_len, offset)`.
The filesystem is consumed read-only, exactly as in the source. -/
def sp_fs_read (st : HostState) (fs : RamFs) (mem : GuestMem)
    (fileCap : Nat) (bufPtr bufLen offset : Nat) :
    Except HostTrap (Int × HostState × GuestMem) :=
  match check_fuel st FS_OPERATION_COST with
  | Except.error t => Except.error t
  | Except.ok st =>
    let capId := CapId.from_u64 fileCap
    match st.get_capability capId with
    | none => Except.ok (CAP_NOT_FOUND, st, mem)
    | some cap =>
      match cap.object with
      | CapabilityType.File handleVal =>
        if cap.rights.contains CapabilityRights.READ then
          match fs.read (handleVal % 2 ^ 32) (List.replicate bufLen 0) offset with
          | Except.error _ => Except.ok (FS_ERROR, st, mem)
          | Except.ok (bytesRead, buffer) =>
            match check_fuel st MEMORY_IO_COST with
            | Except.error t => Except.error t
            | Except.ok st =>
              match memWrite mem bufPtr (buffer.take bytesRead) with
              | some mem' => Except.ok (toI32 bytesRead, st, mem')
              | none => Except.ok (MEMORY_WRITE_FAILED, st, mem)
        else Except.ok (PERMISSION_DENIED, st, mem)
      | _ => Except.ok (NOT_A_FILE, st, mem)

/-- Host function `sp_fs_size(file_cap)`: note there is no rights check. -/
def sp_fs_size (st : HostState) (fs : RamFs) (fileCap : Nat) :
    Except HostTrap (Int × HostState) :=
  match check_fuel st CAP_LOOKUP_COST with
  | Except.error t => Except.error t
  | Except.ok st =>
    let capId := CapId.from_u64 fileCap
    match st.get_capability capId with
    | none => Except.ok (CAP_NOT_FOUND, st)
    | some cap =>
      match cap.object with
      | CapabilityType.File v =>
        (match fs.size (v % 2 ^ 32) with
         | Except.ok s => Except.ok (toI32 s, st)
         | Except.error _ => Except.ok (FS_ERROR, st))
      | CapabilityType.Directory v =>
        (match fs.size (v % 2 ^ 32) with
         | Except.ok s => Except.ok (toI32 s, st)
         | Except.error _ => Except.ok (FS_ERROR, st))
      | _ => Except.ok (NOT_A_FILE, st)

/-- Host function `sp_fs_close(file_cap)`: returns unit; removes the entry
by exact key (no generation check) and closes a file/dir handle. -/
def sp_fs_close (st : HostState) (fs : RamFs) (fileCap : Nat) :
    Except HostTrap (Unit × HostState × RamFs) :=
  match check_fuel st CAP_LOOKUP_COST with
  | Except.error t => Except.error t
  | Except.ok st =>
    let capId := CapId.from_u64 fileCap
    match alistGet st.capabilities capId with
    | some cap =>
      let st' := { st with capabilities := alistRemove st.capabilities capId }
      match cap.object with
      | CapabilityType.File v => Except.ok ((), st', fs.close (v % 2 ^ 32))
      | CapabilityType.Directory v => Except.ok ((), st', fs.close (v % 2 ^ 32))
      | _ => Except.ok ((), st', fs)
    | none => Except.ok ((), st, fs)

/-- Host function `sp_fs_mkdir(dir_cap, path_ptr, path_len)`; `path` is the
already-decoded path string. -/
def sp_fs_mkdir (st : HostState) (fs : RamFs) (dirCap : Nat) (path : List Char) :
    Except HostTrap (Int × HostState × RamFs) :=
  match check_fuel st FS_OPERATION_COST with
  | Except.error t => Except.error t
  | Except.ok st =>
    let capId := CapId.from_u64 dirCap
    match st.get_capability capId with
    | none => Except.ok (CAP_NOT_FOUND, st, fs)
    | some cap =>
      match cap.object with
      | CapabilityType.Directory v =>
        if cap.rights.contains CapabilityRights.WRITE then
          match fs.mkdir_at (v % 2 ^ 32) path with
          | Except.ok fs' => Except.ok (0, st, fs')
          | Except.error _ => Except.ok (FS_ERROR, st, fs)
        else Except.ok (PERMISSION_DENIED, st, fs)
      | _ => Except.ok (NOT_A_DIRECTORY, st, fs)

/-- Host function `sp_mutex_create()`. -/
def sp_mutex_create (st : HostState) (reg : MutexRegistry) :
    Except HostTrap (Int × HostState × MutexRegistry) :=
  match check_fuel st SYNC_CREATE_COST with
  | Except.error t => Except.error t
  | Except.ok st =>
    let r := create_mutex reg
    let a := st.add_capability_new (CapabilityType.Mutex r.2) CapabilityRights.CALL
    Except.ok (toI64 a.2.as_u64, a.1, r.1)

/-- Host function `sp_mutex_lock(cap)`.  When `try_lock` succeeds the guard
is a temporary, so `AsyncMutexGuard::drop` runs before `Ok(0)` is returned;
when it fails the call traps with `MutexWait(handle)`.  The last component
is the waker woken by the guard drop, if any. -/
def sp_mutex_lock (st : HostState) (reg : MutexRegistry) (cap : Nat) :
    Except HostTrap (Int × HostState × MutexRegistry × Option Nat) :=
  match check_fuel st SYNC_OPERATION_COST with
  | Except.error t => Except.error t
  | Except.ok st =>
    let capId := CapId.from_u64 cap
    match st.get_capability capId with
    | none => Except.ok (CAP_NOT_FOUND, st, reg, none)
    | some c =>
      match c.object with
      | CapabilityType.Mutex h =>
        if c.rights.contains CapabilityRights.CALL then
          match alistGet reg.entries h with
          | some m =>
            match AsyncMutex.try_lock m with
            | some mHeld =>
              let d := AsyncMutexGuard.dropGuard mHeld
              Except.ok (0, st, { reg with entries := alistSet reg.entries h d.1 }, d.2)
            | none => Except.error (HostTrap.MutexWait h)
          | none => Except.ok (INVALID_HANDLE, st, reg, none)
        else Except.ok (PERMISSION_DENIED, st, reg, none)
      | _ => Except.ok (INVALID_HANDLE, st, reg, none)

/-- Host function `sp_mutex_try_lock(cap)`.  Same temporary-guard drop as
`sp_mutex_lock`; contention returns `MUTEX_LOCKED` instead of trapping. -/
def sp_mutex_try_lock (st : HostState) (reg : MutexRegistry) (cap : Nat) :
    Except HostTrap (Int × HostState × MutexRegistry × Option Nat) :=
  match check_fuel st SYNC_OPERATION_COST with
  | Except.error t => Except.error t
  | Except.ok st =>
    let capId := CapId.from_u64 cap
    match st.get_capability capId with
    | none => Except.ok (CAP_NOT_FOUND, st, reg, none)
    | some c =>
      match c.object with
      | CapabilityType.Mutex h =>
        if c.rights.contains CapabilityRights.CALL then
          match alistGet reg.entries h with
          | some m =>
            match AsyncMutex.try_lock m with
            | some mHeld =>
              let d := AsyncMutexGuard.dropGuard mHeld
              Except.ok (0, st, { reg with entries := alistSet reg.entries h d.1 }, d.2)
            | none => Except.ok (MUTEX_LOCKED, st, reg, none)
          | none => Except.ok (INVALID_HANDLE, st, reg, none)
        else Except.ok (PERMISSION_DENIED, st, reg, none)
      | _ => Except.ok (INVALID_HANDLE, st, reg, none)

/-- Host function `sp_mutex_unlock(cap)`: checks the registry entry exists
and returns 0 without touching the mutex ("release signal" only). -/
def sp_mutex_unlock (st : HostState) (reg : MutexRegistry) (cap : Nat) :
    Except HostTrap (Int × HostState × MutexRegistry × Option Nat) :=
  match check_fuel st SYNC_OPERATION_COST with
  | Except.error t => Except.error t
  | Except.ok st =>
    let capId := CapId.from_u64 cap
    match st.get_capability capId with
    | none => Except.ok (CAP_NOT_FOUND, st, reg, none)
    | some c =>
      match c.object with
      | CapabilityType.Mutex h =>
        if c.rights.contains CapabilityRights.CALL then
          if (alistGet reg.entries h).isSome then Except.ok (0, st, reg, none)
          else Except.ok (INVALID_HANDLE, st, reg, none)
        else Except.ok (PERMISSION_DENIED, st, reg, none)
      | _ => Except.ok (INVALID_HANDLE, st, reg, none)

/-- Host function `sp_sem_create(permits)`; `permits` is the guest `i32`. -/
def sp_sem_create (st : HostState) (reg : SemRegistry) (permits : Int) :
    Except HostTrap (Int × HostState × SemRegistry) :=
  match check_fuel st SYNC_CREATE_COST with
  | Except.error t => Except.error t
  | Except.ok st =>
    if permits < 0 then Except.ok (PERMISSION_DENIED, st, reg)
    else
      let r := create_semaphore reg permits.toNat
      let a := st.add_capability_new (CapabilityType.Semaphore r.2) CapabilityRights.CALL
      Except.ok (toI64 a.2.as_u64, a.1, r.1)

/-- Host function `sp_sem_acquire(cap)`: acquires a permit or traps with
`SemWait(handle)`. -/
def sp_sem_acquire (st : HostState) (reg : SemRegistry) (cap : Nat) :
    Except HostTrap (Int × HostState × SemRegistry) :=
  match check_fuel st SYNC_OPERATION_COST with
  | Except.error t => Except.error t
  | Except.ok st =>
    let capId := CapId.from_u64 cap
    match st.get_capability capId with
    | none => Except.ok (CAP_NOT_FOUND, st, reg)
    | some c =>
      match c.object with
      | CapabilityType.Semaphore h =>
        if c.rights.contains CapabilityRights.CALL then
          match alistGet reg.entries h with
          | some sem =>
            let r := sem.try_acquire
            if r.1 then
              Except.ok (0, st, { reg with entries := alistSet reg.entries h r.2 })
            else Except.error (HostTrap.SemWait h)
          | none => Except.ok (INVALID_HANDLE, st, reg)
        else Except.ok (PERMISSION_DENIED, st, reg)
      | _ => Except.ok (INVALID_HANDLE, st, reg)

/-- Host function `sp_sem_try_acquire(cap)`. -/
def sp_sem_try_acquire (st : HostState) (reg : SemRegistry) (cap : Nat) :
    Except HostTrap (Int × HostState × SemRegistry) :=
  match check_fuel st SYNC_OPERATION_COST with
  | Except.error t => Except.error t
  | Except.ok st =>
    let capId := CapId.from_u64 cap
    match st.get_capability capId with
    | none => Except.ok (CAP_NOT_FOUND, st, reg)
    | some c =>
      match c.object with
      | CapabilityType.Semaphore h =>
        if c.rights.contains CapabilityRights.CALL then
          match alistGet reg.entries h with
          | some sem =>
            let r := sem.try_acquire
            if r.1 then
              Except.ok (0, st, { reg with entries := alistSet reg.entries h r.2 })
            else Except.ok (SEM_NO_PERMITS, st, reg)
          | none => Except.ok (INVALID_HANDLE, st, reg)
        else Except.ok (PERMISSION_DENIED, st, reg)
      | _ => Except.ok (INVALID_HANDLE, st, reg)

/-- Host function `sp_sem_release(cap)`; the last component is the woken
waiter, if any. -/
def sp_sem_release (st : HostState) (reg : SemRegistry) (cap : Nat) :
    Except HostTrap (Int × HostState × SemRegistry × Option Nat) :=
  match check_fuel st SYNC_OPERATION_COST with
  | Except.error t => Except.error t
  | Except.ok st =>
    let capId := CapId.from_u64 cap
    match st.get_capability capId with
    | none => Except.ok (CAP_NOT_FOUND, st, reg, none)
    | some c =>
      match c.object with
      | CapabilityType.Semaphore h =>
        if c.rights.contains CapabilityRights.CALL then
          match alistGet reg.entries h with
          | some sem =>
            let r := sem.release
            Except.ok (0, st, { reg with entries := alistSet reg.entries h r.1 }, r.2)
          | none => Except.ok (INVALID_HANDLE, st, reg, none)
        else Except.ok (PERMISSION_DENIED, st, reg, none)
      | _ => Except.ok (INVALID_HANDLE, st, reg, none)

/-- Host-fuel reset at the start of every poll (`WasmTask::poll`:
`fuel_remaining = FUEL_PER_SLICE`). -/
def poll_reset_host_fuel (st : HostState) : HostState :=
  { st with fuel_remaining := FUEL_PER_SLICE }

/-- Iterate `n` host-fuel checks of cost `c`, stopping at the first trap. -/
def iterChecks (st : HostState) (c : Nat) : Nat → Except HostTrap HostState
  | 0 => Except.ok st
  | n + 1 =>
    match check_fuel st c with
    | Except.error t => Except.error t
    | Except.ok st' => iterChecks st' c n

/-! ## Cooperative executor — `src/kernel/src/task/executor.rs`

A task's future is modelled as a script of poll outcomes.  `stash = true`
on a step means the poll clones its waker into an external store (as the
sync primitives' acquire futures do); such an escaped clone can fire later
as a separate wake event, even after the task has completed — this is the
`ArrayQueue` push in `TaskWaker::wake_by_ref`, which runs regardless of
whether the task is still in the map.  The ghost field `spawned` records
every id ever handed to `spawn`.
-/

def QUEUE_CAPACITY : Nat := 100

inductive Priority where
  | Idle
  | Normal
  | High
  | Critical
deriving DecidableEq, Repr

/-- One poll outcome of a task's future: whether the poll returns `Ready`,
and whether it clones its waker into an external store before returning. -/
structure PollStep where
  isReady : Bool
  stash : Bool
deriving DecidableEq, Repr

structure Task where
  id : Nat
  priority : Priority
  future : List PollStep
deriving DecidableEq, Repr

/-- The four bounded FIFO queues `[Idle, Normal, High, Critical]`. -/
structure TaskQueues where
  idleQ : List Nat
  normalQ : List Nat
  highQ : List Nat
  criticalQ : List Nat
deriving DecidableEq, Repr

def TaskQueues.get (qs : TaskQueues) : Priority → List Nat
  | Priority.Idle => qs.idleQ
  | Priority.Normal => qs.normalQ
  | Priority.High => qs.highQ
  | Priority.Critical => qs.criticalQ

def TaskQueues.set (qs : TaskQueues) : Priority → List Nat → TaskQueues
  | Priority.Idle, q => { qs with idleQ := q }
  | Priority.Normal, q => { qs with normalQ := q }
  | Priority.High, q => { qs with highQ := q }
  | Priority.Critical, q => { qs with criticalQ := q }

/-- `ArrayQueue::push`: append at the back, failing when full. -/
def TaskQueues.push (qs : TaskQueues) (p : Priority) (tid : Nat) :
    TaskQueues × Bool :=
  let q := qs.get p
  if q.length < QUEUE_CAPACITY then (qs.set p (q ++ [tid]), true) else (qs, false)

structure ExecState where
  tasks : List (Nat × Task)
  queues : TaskQueues
  escaped : List (Nat × Priority)
  spawned : List Nat
deriving DecidableEq, Repr

def execInitial : ExecState :=
  { tasks := [], queues := ⟨[], [], [], []⟩, escaped := [], spawned := [] }

/-- `Executor::spawn`: refuse duplicate ids; insert into the map, push onto
the priority queue, and remove again if the queue was full. -/
def Executor.spawn (s : ExecState) (t : Task) : ExecState :=
  if (alistGet s.tasks t.id).isSome then s
  else
    let s1 := { s with
      tasks := alistSet s.tasks t.id t,
      spawned := t.id :: s.spawned }
    let r := s1.queues.push t.priority t.id
    if r.2 then { s1 with queues := r.1 }
    else { s1 with tasks := alistRemove s1.tasks t.id }

/-- One iteration of the `while let Some(task_id) = queue.pop()` loop body
of `run_ready_tasks`, after popping `tid` off queue `p` (leaving `rest`):
look the task up (skipping ids no longer in the map), poll it, record an
escaped waker clone when the poll stashes one, remove the task on `Ready`,
keep the rest of its script on `Pending`. -/
def drainStep (s : ExecState) (p : Priority) (tid : Nat) (rest : List Nat) :
    ExecState :=
  match alistGet s.tasks tid with
  | none => { s with queues := s.queues.set p rest }
  | some t =>
    match t.future with
    | [] =>
      { s with queues := s.queues.set p rest, tasks := alistRemove s.tasks tid }
    | step :: future' =>
      if step.isReady then
        if step.stash then
          { s with
            queues := s.queues.set p rest,
            escaped := (tid, p) :: s.escaped,
            tasks := alistRemove s.tasks tid }
        else
          { s with queues := s.queues.set p rest, tasks := alistRemove s.tasks tid }
      else
        if step.stash then
          { s with
            queues := s.queues.set p rest,
            escaped := (tid, p) :: s.escaped,
            tasks := alistSet s.tasks tid { t with future := future' } }
        else
          { s with
            queues := s.queues.set p rest,
            tasks := alistSet s.tasks tid { t with future := future' } }

/-- The drain loop of `run_ready_tasks` for one priority level, with
explicit gas. -/
def drainQueue : Nat → ExecState → Priority → ExecState
  | 0, s, _ => s
  | gas + 1, s, p =>
    match s.queues.get p with
    | [] => s
    | tid :: rest => drainQueue gas (drainStep s p tid rest) p

/-- `Executor::run_ready_tasks`: drain Critical down to Idle. -/
def run_ready_tasks (gas : Nat) (s : ExecState) : ExecState :=
  drainQueue gas
    (drainQueue gas
      (drainQueue gas
        (drainQueue gas s Priority.Critical) Priority.High) Priority.Normal)
    Priority.Idle

def removeOnePair : List (Nat × Priority) → Nat × Priority → List (Nat × Priority)
  | [], _ => []
  | x :: rest, y => if x = y then rest else x :: removeOnePair rest y

/-- Firing an escaped waker clone (`TaskWaker::wake_by_ref` reached through
a stored `Waker`): consume the clone and push the id onto the queue the
waker holds, dropping the wake silently when the queue is full. -/
def wakeTask (s : ExecState) (tid : Nat) (p : Priority) : ExecState :=
  let s1 := { s with escaped := removeOnePair s.escaped (tid, p) }
  let r := s1.queues.push p tid
  if r.2 then { s1 with queues := r.1 } else s1

/-- Executor states reachable by spawns, run cycles and waker fires. -/
inductive ExecReach : ExecState → Prop where
  | start : ExecReach execInitial
  | spawnStep {s : ExecState} (t : Task) : ExecReach s → ExecReach (Executor.spawn s t)
  | runStep {s : ExecState} (gas : Nat) : ExecReach s → ExecReach (run_ready_tasks gas s)
  | wakeStep {s : ExecState} (tid : Nat) (p : Priority) : ExecReach s →
      (tid, p) ∈ s.escaped → ExecReach (wakeTask s tid p)

/-- All task ids sitting in any of the four priority queues. -/
def allQueueIds (s : ExecState) : List Nat :=
  s.queues.idleQ ++ s.queues.normalQ ++ s.queues.highQ ++ s.queues.criticalQ

/-- The claimed queue/map agreement invariant: every queued id is a key of
the task map, and every mapped (pending) task id sits in some queue. -/
def queuesAgreeWithTasks (s : ExecState) : Prop :=
  (∀ tid, tid ∈ allQueueIds s → alistGet s.tasks tid ≠ none) ∧
  (∀ tid, alistGet s.tasks tid ≠ none → tid ∈ allQueueIds s)

/-! ## Fuel lemmas -/

theorem check_fuel_ok (st : HostState) (cost : Nat)
    (h : YIELD_THRESHOLD + cost ≤ st.fuel_remaining) :
    check_fuel st cost =
      Except.ok { st with fuel_remaining := st.fuel_remaining - cost } := by
  have hge : YIELD_THRESHOLD ≤ st.fuel_remaining - cost := by omega
  simp [check_fuel, HostState.consume_fuel, hge]

theorem check_fuel_err (st : HostState) (cost : Nat)
    (h : st.fuel_remaining - cost < YIELD_THRESHOLD) :
    check_fuel st cost = Except.error HostTrap.Yield := by
  have hlt : ¬ YIELD_THRESHOLD ≤ st.fuel_remaining - cost := by omega
  simp [check_fuel, HostState.consume_fuel, hlt]

theorem check_fuel_ok_lit (st : HostState) (cost f : Nat)
    (hf : st.fuel_remaining = f) (h : YIELD_THRESHOLD + cost ≤ f) :
    check_fuel st cost = Except.ok { st with fuel_remaining := f - cost } := by
  rw [check_fuel_ok st cost (by omega), hf]

theorem iterChecks_ok (n : Nat) : ∀ (st : HostState) (c f : Nat),
    st.fuel_remaining = f →
    YIELD_THRESHOLD + c * n ≤ f →
    iterChecks st c n = Except.ok { st with fuel_remaining := f - c * n } := by
  induction n with
  | zero =>
    intro st c f hf _
    simp [iterChecks, ← hf]
  | succ n ih =>
    intro st c f hf h
    have hm : c * (n + 1) = c * n + c := Nat.mul_succ c n
    rw [hm] at h
    have h1 : YIELD_THRESHOLD + c ≤ f := by omega
    have h2 : YIELD_THRESHOLD + c * n ≤ f - c := by omega
    have hrec := ih { st with fuel_remaining := f - c } c (f - c) rfl h2
    simp only [iterChecks, check_fuel_ok_lit st c f hf h1, hrec]
    have : f - c - c * n = f - c * (n + 1) := by rw [hm]; omega
    rw [this]

theorem iterChecks_split (m n : Nat) : ∀ (st : HostState) (c : Nat),
    iterChecks st c (m + n) =
      match iterChecks st c m with
      | Except.ok st' => iterChecks st' c n
      | Except.error t => Except.error t := by
  induction m with
  | zero => intro st c; simp [iterChecks]
  | succ m ih =>
    intro st c
    have hs : m + 1 + n = (m + n) + 1 := by omega
    rw [hs]
    simp only [iterChecks]
    cases hcf : check_fuel st c with
    | error t => simp
    | ok st' => simpa using ih st' c

/-! ## Integer reinterpretation lemmas -/

theorem toI32_small (n : Nat) (h : n < 2 ^ 31) : toI32 n = (n : Int) := by
  have h32 : n < 2 ^ 32 := by omega
  unfold toI32
  rw [Nat.mod_eq_of_lt h32, if_pos h]

/-! ## Splice lemmas for guest-memory writes -/

theorem leBytes_length (n v : Nat) : (leBytes n v).length = n := by
  simp [leBytes]

theorem capRecord_length (cap : Capability) : (capRecord cap).length = 16 := by
  simp [capRecord, leBytes_length]

theorem spliceAt_nil (mem : GuestMem) (off : Nat) : spliceAt mem off [] = mem := by
  simp [spliceAt]

theorem spliceAt_length (mem : GuestMem) (off : Nat) (seg : List Nat)
    (h : off + seg.length ≤ mem.length) :
    (spliceAt mem off seg).length = mem.length := by
  simp [spliceAt]
  omega

theorem spliceAt_spliceAt (mem : GuestMem) (off : Nat) (a b : List Nat)
    (h : off + a.length ≤ mem.length) :
    spliceAt (spliceAt mem off a) (off + a.length) b = spliceAt mem off (a ++ b) := by
  have hofflen : (mem.take off).length = off := by
    simp [List.length_take]; omega
  have hfront : (mem.take off ++ a).length = off + a.length := by
    simp [hofflen]
  unfold spliceAt
  have htake :
      (mem.take off ++ a ++ mem.drop (off + a.length)).take (off + a.length) =
        mem.take off ++ a := by
    rw [List.take_left' hfront]
  have hdrop :
      (mem.take off ++ a ++ mem.drop (off + a.length)).drop (off + a.length + b.length) =
        mem.drop (off + (a ++ b).length) := by
    rw [List.drop_append_eq_append_drop]
    have hnil : (mem.take off ++ a).drop (off + a.length + b.length) = [] := by
      apply List.drop_eq_nil_of_le
      rw [hfront]; omega
    rw [hnil, List.nil_append, List.drop_drop, hfront]
    congr 1
    simp
    omega
  calc (mem.take off ++ a ++ mem.drop (off + a.length)).take (off + a.length) ++ b ++
        (mem.take off ++ a ++ mem.drop (off + a.length)).drop (off + a.length + b.length)
      = (mem.take off ++ a) ++ b ++ mem.drop (off + (a ++ b).length) := by
        rw [htake, hdrop]
    _ = mem.take off ++ (a ++ b) ++ mem.drop (off + (a ++ b).length) := by
        simp [List.append_assoc]

theorem memWrite_ok (mem : GuestMem) (off : Nat) (bytes : List Nat)
    (h : off + bytes.length ≤ mem.length) :
    memWrite mem off bytes = some (spliceAt mem off bytes) := by
  simp [memWrite, h]

theorem writeRecord_ok (mem : GuestMem) (off : Nat) (cap : Capability)
    (h : off + 16 ≤ mem.length) :
    writeRecord mem off cap = some (spliceAt mem off (capRecord cap)) := by
  have h8 : off + (leBytes 8 cap.id.as_u64).length ≤ mem.length := by
    rw [leBytes_length]; omega
  have hm1len : (spliceAt mem off (leBytes 8 cap.id.as_u64)).length = mem.length :=
    spliceAt_length _ _ _ h8
  have e1 := memWrite_ok mem off (leBytes 8 cap.id.as_u64) h8
  have h12 : (off + 8) + (leBytes 4 (typeTag cap.object)).length ≤
      (spliceAt mem off (leBytes 8 cap.id.as_u64)).length := by
    rw [leBytes_length, hm1len]; omega
  have e2 := memWrite_ok _ (off + 8) (leBytes 4 (typeTag cap.object)) h12
  have hcomp1 : spliceAt (spliceAt mem off (leBytes 8 cap.id.as_u64)) (off + 8)
      (leBytes 4 (typeTag cap.object)) =
      spliceAt mem off (leBytes 8 cap.id.as_u64 ++ leBytes 4 (typeTag cap.object)) := by
    have : off + 8 = off + (leBytes 8 cap.id.as_u64).length := by rw [leBytes_length]
    rw [this, spliceAt_spliceAt mem off _ _ h8]
  have hablen :
      (leBytes 8 cap.id.as_u64 ++ leBytes 4 (typeTag cap.object)).length = 12 := by
    simp [leBytes_length]
  have hm2len :
      (spliceAt mem off (leBytes 8 cap.id.as_u64 ++ leBytes 4 (typeTag cap.object))).length =
        mem.length := by
    apply spliceAt_length
    rw [hablen]; omega
  have h16 : (off + 12) + (leBytes 4 cap.rights.bits).length ≤
      (spliceAt mem off (leBytes 8 cap.id.as_u64 ++ leBytes 4 (typeTag cap.object))).length := by
    rw [leBytes_length, hm2len]; omega
  have e3 := memWrite_ok _ (off + 12) (leBytes 4 cap.rights.bits) h16
  have hcomp2 : spliceAt
      (spliceAt mem off (leBytes 8 cap.id.as_u64 ++ leBytes 4 (typeTag cap.object)))
      (off + 12) (leBytes 4 cap.rights.bits) = spliceAt mem off (capRecord cap) := by
    have h12' : off + 12 =
        off + (leBytes 8 cap.id.as_u64 ++ leBytes 4 (typeTag cap.object)).length := by
      rw [hablen]
    rw [h12', spliceAt_spliceAt mem off _ _ (by rw [hablen]; omega)]
    rfl
  rw [writeRecord, e1]
  simp only [e2, hcomp1, e3, hcomp2]

theorem writeCaps_ok : ∀ (caps : List Capability) (mem : GuestMem) (off : Nat),
    off + 16 * caps.length ≤ mem.length →
    writeCaps mem off caps =
      some (spliceAt mem off ((caps.map capRecord).flatten)) := by
  intro caps
  induction caps with
  | nil => intro mem off _; simp [writeCaps, spliceAt_nil]
  | cons cap rest ih =>
    intro mem off h
    have hlen : 16 * (cap :: rest).length = 16 + 16 * rest.length := by
      simp [List.length_cons]; ring
    rw [hlen] at h
    have hr := writeRecord_ok mem off cap (by omega)
    have hm3len : (spliceAt mem off (capRecord cap)).length = mem.length := by
      apply spliceAt_length
      rw [capRecord_length]; omega
    have hrec := ih (spliceAt mem off (capRecord cap)) (off + 16) (by rw [hm3len]; omega)
    have hfinal : spliceAt (spliceAt mem off (capRecord cap)) (off + 16)
        ((rest.map capRecord).flatten) =
        spliceAt mem off (capRecord cap ++ (rest.map capRecord).flatten) := by
      have h16' : off + 16 = off + (capRecord cap).length := by rw [capRecord_length]
      rw [h16', spliceAt_spliceAt mem off _ _ (by rw [capRecord_length]; omega)]
    rw [writeCaps, hr]
    simp only [hrec, hfinal, List.map_cons, List.flatten_cons]

/-! ## Executor invariant lemmas -/

theorem mem_allQueueIds_get {s : ExecState} {p : Priority} {x : Nat}
    (h : x ∈ s.queues.get p) : x ∈ allQueueIds s := by
  cases p <;> simp [TaskQueues.get] at h <;> simp [allQueueIds, h]

theorem mem_queues_set {qs : TaskQueues} {p : Priority} {q : List Nat} {x : Nat}
    (h : x ∈ (qs.set p q).idleQ ++ (qs.set p q).normalQ ++ (qs.set p q).highQ ++
      (qs.set p q).criticalQ) :
    x ∈ q ∨ x ∈ qs.idleQ ++ qs.normalQ ++ qs.highQ ++ qs.criticalQ := by
  cases p <;> simp [TaskQueues.set] at h <;> simp <;> tauto

theorem mem_allQueueIds_set {s : ExecState} {p : Priority} {q : List Nat} {x : Nat}
    (h : x ∈ allQueueIds { s with queues := s.queues.set p q }) :
    x ∈ q ∨ x ∈ allQueueIds s := by
  exact mem_queues_set h

theorem mem_queues_push {qs : TaskQueues} {p : Priority} {tid x : Nat}
    (h : x ∈ (qs.push p tid).1.idleQ ++ (qs.push p tid).1.normalQ ++
      (qs.push p tid).1.highQ ++ (qs.push p tid).1.criticalQ) :
    x = tid ∨ x ∈ qs.idleQ ++ qs.normalQ ++ qs.highQ ++ qs.criticalQ := by
  unfold TaskQueues.push at h
  by_cases hfull : (qs.get p).length < QUEUE_CAPACITY
  · simp only [hfull, if_true] at h
    rcases mem_queues_set h with hq | hq
    · rcases List.mem_append.mp hq with hq' | hq'
      · right
        have : x ∈ qs.get p := hq'
        cases p <;> simp [TaskQueues.get] at this <;> simp <;> tauto
      · left; simpa using hq'
    · right; exact hq
  · simp only [hfull, if_false] at h
    right; exact h

/-- Invariant carried through every executor transition: queue members and
escaped waker clones always name previously spawned ids. -/
def execInv (s : ExecState) : Prop :=
  (∀ x, x ∈ allQueueIds s → x ∈ s.spawned) ∧
  (∀ pr : Nat × Priority, pr ∈ s.escaped → pr.1 ∈ s.spawned)

theorem execInv_initial : execInv execInitial := by
  constructor
  · intro x hx; simp [allQueueIds, execInitial] at hx
  · intro pr hpr; simp [execInitial] at hpr

theorem execInv_spawn {s : ExecState} (t : Task) (h : execInv s) :
    execInv (Executor.spawn s t) := by
  unfold Executor.spawn
  by_cases hdup : (alistGet s.tasks t.id).isSome = true
  · simp only [hdup, if_true]
    exact h
  · simp only [hdup, if_false]
    by_cases hfull : (s.queues.push t.priority t.id).2 = true
    · simp only [hfull, if_true]
      constructor
      · intro x hx
        rcases @mem_queues_push s.queues t.priority t.id x hx with he | ho
        · simp [he]
        · exact List.mem_cons_of_mem _ (h.1 x ho)
      · intro pr hpr
        exact List.mem_cons_of_mem _ (h.2 pr hpr)
    · simp only [hfull, if_false]
      constructor
      · intro x hx
        exact List.mem_cons_of_mem _ (h.1 x hx)
      · intro pr hpr
        exact List.mem_cons_of_mem _ (h.2 pr hpr)

theorem execInv_drainStep {s : ExecState} {p : Priority} {tid : Nat}
    {rest : List Nat} (h : execInv s) (hq : s.queues.get p = tid :: rest) :
    execInv (drainStep s p tid rest) := by
  have htid : tid ∈ s.spawned := h.1 tid (mem_allQueueIds_get (by rw [hq]; simp))
  have hqueue : ∀ x, x ∈ allQueueIds { s with queues := s.queues.set p rest } →
      x ∈ s.spawned := by
    intro x hx
    rcases mem_allQueueIds_set hx with hr | ho
    · exact h.1 x (@mem_allQueueIds_get _ p x (by rw [hq]; simp [hr]))
    · exact h.1 x ho
  have hesc : ∀ pr : Nat × Priority, pr ∈ (tid, p) :: s.escaped → pr.1 ∈ s.spawned := by
    intro pr hpr
    rcases List.mem_cons.mp hpr with he | ho
    · rw [he]; exact htid
    · exact h.2 pr ho
  unfold drainStep
  split
  · exact ⟨hqueue, h.2⟩
  · split
    · exact ⟨hqueue, h.2⟩
    · split
      · split
        · exact ⟨hqueue, hesc⟩
        · exact ⟨hqueue, h.2⟩
      · split
        · exact ⟨hqueue, hesc⟩
        · exact ⟨hqueue, h.2⟩

theorem execInv_drain (gas : Nat) : ∀ (s : ExecState) (p : Priority),
    execInv s → execInv (drainQueue gas s p) := by
  induction gas with
  | zero => intro s p h; exact h
  | succ gas ih =>
    intro s p h
    rw [drainQueue]
    cases hq : s.queues.get p with
    | nil => exact h
    | cons tid rest => exact ih _ p (execInv_drainStep h hq)

theorem mem_removeOnePair {l : List (Nat × Priority)} {y x : Nat × Priority}
    (h : x ∈ removeOnePair l y) : x ∈ l := by
  induction l with
  | nil => simp [removeOnePair] at h
  | cons a rest ih =>
    unfold removeOnePair at h
    by_cases ha : a = y
    · simp only [ha, if_true] at h
      exact List.mem_cons_of_mem _ h
    · simp only [ha, if_false] at h
      rcases List.mem_cons.mp h with he | ho
      · simp [he]
      · exact List.mem_cons_of_mem _ (ih ho)

theorem execInv_wake {s : ExecState} (tid : Nat) (p : Priority)
    (h : execInv s) (hmem : (tid, p) ∈ s.escaped) :
    execInv (wakeTask s tid p) := by
  have htid : tid ∈ s.spawned := h.2 (tid, p) hmem
  unfold wakeTask
  by_cases hfull :
      ((({ s with escaped := removeOnePair s.escaped (tid, p) } : ExecState).queues.push
        p tid)).2
  · simp only [hfull, if_true]
    constructor
    · intro x hx
      have := @mem_queues_push s.queues p tid x hx
      rcases this with he | ho
      · rw [he]; exact htid
      · exact h.1 x ho
    · intro pr hpr
      exact h.2 pr (mem_removeOnePair hpr)
  · simp only [hfull, if_false, Bool.false_eq_true]
    constructor
    · intro x hx
      exact h.1 x hx
    · intro pr hpr
      exact h.2 pr (mem_removeOnePair hpr)

theorem execInv_reach {s : ExecState} (h : ExecReach s) : execInv s := by
  induction h with
  | start => exact execInv_initial
  | spawnStep t _ ih => exact execInv_spawn t ih
  | runStep gas _ ih =>
    exact execInv_drain gas _ _ (execInv_drain gas _ _
      (execInv_drain gas _ _ (execInv_drain gas _ _ ih)))
  | wakeStep tid p _ hmem ih => exact execInv_wake tid p ih hmem

theorem alistRemove_append {α β : Type} [DecidableEq α] (l₁ l₂ : List (α × β)) (q : α) :
    alistRemove (l₁ ++ l₂) q = alistRemove l₁ q ++ alistRemove l₂ q := by
  induction l₁ with
  | nil => simp [alistRemove]
  | cons p rest ih =>
    by_cases hp : p.1 = q <;> simp [alistRemove, hp, ih]

theorem alistRemove_set_self {α β : Type} [DecidableEq α] (l : List (α × β)) (k : α)
    (v : β) : alistRemove (alistSet l k v) k = alistRemove l k := by
  rw [alistSet, alistRemove_append]
  rw [alistRemove_of_not_mem _ _ (alistGet_remove_self l k)]
  simp [alistRemove]

/-! ## Claim C5 — host-fuel slice arithmetic -/

/-- C5: host fuel is reset to the slice size 10,000 at the start of every
poll; `consume_fuel` deducts its cost with saturation at 0 and reports
success exactly when the post-deduction fuel is at least the threshold 500;
from a fresh slice, a sequence of cost-100 fuel checks succeeds for exactly
the first 95 checks and the 96th check returns a `Yield` trap. -/
theorem host_fuel_slice_bound (st : HostState) :
    FUEL_PER_SLICE = 10000 ∧ YIELD_THRESHOLD = 500 ∧
    (poll_reset_host_fuel st).fuel_remaining = 10000 ∧
    (∀ c : Nat, (st.consume_fuel c).1.fuel_remaining = st.fuel_remaining - c ∧
      ((st.consume_fuel c).2 = true ↔ YIELD_THRESHOLD ≤ st.fuel_remaining - c)) ∧
    iterChecks (poll_reset_host_fuel st) 100 95 =
      Except.ok { st with fuel_remaining := 500 } ∧
    iterChecks (poll_reset_host_fuel st) 100 96 = Except.error HostTrap.Yield := by
  have h95 : iterChecks (poll_reset_host_fuel st) 100 95 =
      Except.ok { st with fuel_remaining := 500 } := by
    have h := iterChecks_ok 95 (poll_reset_host_fuel st) 100 10000 rfl
      (by simp [YIELD_THRESHOLD])
    rw [h]
    rfl
  refine ⟨rfl, rfl, rfl, ?_, h95, ?_⟩
  · intro c
    refine ⟨rfl, ?_⟩
    simp [HostState.consume_fuel, ge_iff_le]
  · rw [show (96 : Nat) = 95 + 1 by norm_num, iterChecks_split 95 1, h95]
    have hend : check_fuel ({ st with fuel_remaining := 500 } : HostState) 100 =
        Except.error HostTrap.Yield := by
      apply check_fuel_err
      show (500 : Nat) - 100 < YIELD_THRESHOLD
      simp [YIELD_THRESHOLD]
    simp only [iterChecks, hend]

/-! ## Claim C4 — semaphore created with zero permits -/

/-- C4 counterexample: for the semaphore built by `Semaphore::new(0)` (this
is what `create_semaphore(0)` stores), one `release` followed by
`try_acquire` still yields `false`, refuting the claimed `true`. -/
theorem sem_zero_release_try_acquire_false :
    (((Semaphore.new 0).release).1.try_acquire).1 = false := by decide

/-- C4 amended: with 0 initial permits `try_acquire` returns `false`, and
after a single `release()` it still returns `false`, because
`Semaphore::new(0)` makes `max_permits = 0` and `release` caps the permit
count at the maximum; `create_semaphore(0)` registers exactly this
semaphore. -/
theorem sem_zero_permits_behaviour :
    ((Semaphore.new 0).try_acquire).1 = false ∧
    (Semaphore.new 0).max_permits = 0 ∧
    (((Semaphore.new 0).release).1.try_acquire).1 = false ∧
    ((Semaphore.new 0).release).1.permits = 0 ∧
    alistGet (create_semaphore { entries := [], nextId := 1 } 0).1.entries 1 =
      some (Semaphore.new 0) := by decide

/-! ## Claim C3 — mutex acquisition across host calls -/

def mutexDemoReg : MutexRegistry :=
  { entries := [(1, { locked := false, waiters := [] })], nextId := 2 }

def capMutexA : Capability :=
  { id := ⟨3, 0⟩, rights := CapabilityRights.CALL,
    object := CapabilityType.Mutex 1, generation := 0 }

def stMutexA : HostState :=
  { capabilities := [(⟨3, 0⟩, capMutexA)], fuel_remaining := 10000, nextCapIndex := 50 }

def capMutexB : Capability :=
  { id := ⟨4, 0⟩, rights := CapabilityRights.CALL,
    object := CapabilityType.Mutex 1, generation := 0 }

def stMutexB : HostState :=
  { capabilities := [(⟨4, 0⟩, capMutexB)], fuel_remaining := 10000, nextCapIndex := 60 }

/-- C3 evaluated at the failing input: task A's `sp_mutex_try_lock` on a
fresh mutex returns 0, but the temporary `AsyncMutexGuard` is dropped
before the host function returns, storing `locked = false` again — the
registry comes back with the mutex unlocked.  Task B's `sp_mutex_lock` on
the same handle therefore also returns 0 instead of trapping with
`MutexWait 1`, although no `sp_mutex_unlock` happened in between. -/
theorem mutex_lock_not_blocked_after_try_lock :
    sp_mutex_try_lock stMutexA mutexDemoReg 3 =
      Except.ok (0, { stMutexA with fuel_remaining := 9980 }, mutexDemoReg, none) ∧
    sp_mutex_lock stMutexB mutexDemoReg 4 =
      Except.ok (0, { stMutexB with fuel_remaining := 9980 }, mutexDemoReg, none) := by
  constructor <;> rfl

/-! ## Claim C10 — `sp_mutex_unlock` performs no release -/

/-- C10: `sp_mutex_unlock` on a live mutex capability carrying CALL whose
handle is present in the registry returns 0 and leaves the mutex exactly as
it was: the registry is returned unchanged (same locked flag and waiter
queue) and no waiter is woken. -/
theorem sp_mutex_unlock_no_frame_effect
    (st : HostState) (reg : MutexRegistry) (rawId : Nat) (cap : Capability) (h : Nat)
    (hfuel : 600 ≤ st.fuel_remaining)
    (hcap : st.get_capability (CapId.from_u64 rawId) = some cap)
    (hobj : cap.object = CapabilityType.Mutex h)
    (hcall : cap.rights.call = true)
    (hreg : (alistGet reg.entries h).isSome = true) :
    sp_mutex_unlock st reg rawId =
      Except.ok (0,
        { st with fuel_remaining := st.fuel_remaining - SYNC_OPERATION_COST },
        reg, none) := by
  have hck : check_fuel st SYNC_OPERATION_COST = Except.ok
      { st with fuel_remaining := st.fuel_remaining - SYNC_OPERATION_COST } :=
    check_fuel_ok st _ (by simp only [YIELD_THRESHOLD, SYNC_OPERATION_COST]; omega)
  have hcap1 : HostState.get_capability
      { st with fuel_remaining := st.fuel_remaining - SYNC_OPERATION_COST }
      (CapId.from_u64 rawId) = some cap := hcap
  unfold sp_mutex_unlock
  rw [hck]
  dsimp only
  rw [hcap1]
  dsimp only
  rw [hobj]
  dsimp only
  rw [contains_CALL_eq, hcall, hreg]
  rfl

/-! ## Claim C1 — rights derivation in `sp_fs_open` -/

/-- Statement helper: the capability `sp_fs_open` constructs on success. -/
def derivedCap (st : HostState) (fs' : RamFs) (newHandle : Nat)
    (parent : Capability) : Capability :=
  { id := { index := st.nextCapIndex % 2 ^ 32, generation := 0 },
    rights := parent.rights.inter (applicable_rights (fs'.is_dir newHandle)),
    object := if fs'.is_dir newHandle then CapabilityType.Directory newHandle
      else CapabilityType.File newHandle,
    generation := 0 }

/-- Statement helper: the host state after `sp_fs_open` succeeds. -/
def stateAfterOpen (st : HostState) (fs' : RamFs) (newHandle : Nat)
    (parent : Capability) : HostState :=
  { capabilities := alistSet st.capabilities (derivedCap st fs' newHandle parent).id
      (derivedCap st fs' newHandle parent),
    fuel_remaining := st.fuel_remaining - FS_OPERATION_COST,
    nextCapIndex := st.nextCapIndex + 1 }

/-- C1: whenever `sp_fs_open` succeeds (live Directory parent capability
with READ, path resolves), the capability it adds has rights equal to the
parent's rights intersected with the applicable rights of the opened node's
type (READ|WRITE|EXECUTE|GRANT for a directory, READ|WRITE for a file); in
particular the derived rights are contained in the parent's rights. -/
theorem sp_fs_open_derived_rights
    (st : HostState) (fs : RamFs) (dirCap : Nat) (path : List Char)
    (parent : Capability) (dh : Nat) (fs' : RamFs) (newHandle : Nat)
    (hfuel : 600 ≤ st.fuel_remaining)
    (hcap : st.get_capability (CapId.from_u64 dirCap) = some parent)
    (hobj : parent.object = CapabilityType.Directory dh)
    (hread : parent.rights.read = true)
    (hopen : fs.open_at (dh % 2 ^ 32) path = Except.ok (fs', newHandle)) :
    ∃ (st' : HostState) (newCap : Capability),
      sp_fs_open st fs dirCap path = Except.ok (toI64 newCap.id.as_u64, st', fs') ∧
      alistGet st'.capabilities newCap.id = some newCap ∧
      newCap.rights = parent.rights.inter (applicable_rights (fs'.is_dir newHandle)) ∧
      parent.rights.contains newCap.rights = true := by
  have hck : check_fuel st FS_OPERATION_COST = Except.ok
      { st with fuel_remaining := st.fuel_remaining - FS_OPERATION_COST } :=
    check_fuel_ok st _ (by simp only [YIELD_THRESHOLD, FS_OPERATION_COST]; omega)
  have hcap1 : HostState.get_capability
      { st with fuel_remaining := st.fuel_remaining - FS_OPERATION_COST }
      (CapId.from_u64 dirCap) = some parent := hcap
  have heq : sp_fs_open st fs dirCap path =
      (let isDir := fs'.is_dir newHandle
       let capType := if isDir then CapabilityType.Directory newHandle
         else CapabilityType.File newHandle
       let derivedRights := parent.rights.inter (applicable_rights isDir)
       let r := HostState.add_capability_new
         { st with fuel_remaining := st.fuel_remaining - FS_OPERATION_COST }
         capType derivedRights
       Except.ok (toI64 r.2.as_u64, r.1, fs')) := by
    unfold sp_fs_open
    rw [hck]
    dsimp only
    rw [hcap1]
    dsimp only
    rw [hobj]
    dsimp only
    rw [contains_READ_eq, hread, hopen]
    rfl
  refine ⟨stateAfterOpen st fs' newHandle parent, derivedCap st fs' newHandle parent,
    ?_, ?_, rfl, contains_inter parent.rights _⟩
  · rw [heq]
    rfl
  · exact alistGet_set_self _ _ _

def capDirDemo : Capability :=
  { id := ⟨1, 0⟩, rights := CapabilityRights.READ,
    object := CapabilityType.Directory 5, generation := 0 }

def stOpenDemo : HostState :=
  { capabilities := [(⟨1, 0⟩, capDirDemo)], fuel_remaining := 10000,
    nextCapIndex := 100 }

def fsOpenDemo : RamFs :=
  { root := Node.dir [],
    handles := [(5, Node.dir [(['x'], Node.file [1, 2, 3])])],
    nextHandle := 7 }

def fsOpenDemoAfter : RamFs :=
  { root := Node.dir [],
    handles := [(5, Node.dir [(['x'], Node.file [1, 2, 3])]), (7, Node.file [1, 2, 3])],
    nextHandle := 8 }

/-- C1 witness: opening the file `x` under a READ-only directory capability
derives a capability whose rights are READ ∩ (READ|WRITE) = READ. -/
theorem sp_fs_open_derived_rights_witness :
    600 ≤ stOpenDemo.fuel_remaining ∧
    stOpenDemo.get_capability (CapId.from_u64 1) = some capDirDemo ∧
    capDirDemo.object = CapabilityType.Directory 5 ∧
    capDirDemo.rights.read = true ∧
    fsOpenDemo.open_at (5 % 2 ^ 32) ['x'] = Except.ok (fsOpenDemoAfter, 7) ∧
    (∃ (st' : HostState) (newCap : Capability),
      sp_fs_open stOpenDemo fsOpenDemo 1 ['x'] =
        Except.ok (toI64 newCap.id.as_u64, st', fsOpenDemoAfter) ∧
      alistGet st'.capabilities newCap.id = some newCap ∧
      newCap.rights =
        capDirDemo.rights.inter (applicable_rights (fsOpenDemoAfter.is_dir 7)) ∧
      capDirDemo.rights.contains newCap.rights = true) :=
  ⟨by decide, by decide, by decide, by decide, rfl,
   sp_fs_open_derived_rights stOpenDemo fsOpenDemo 1 ['x'] capDirDemo 5
     fsOpenDemoAfter 7 (by decide) (by decide) (by decide) (by decide) rfl⟩

/-! ## Claim C2 — stale capability ids -/

def fsDemoFile : RamFs :=
  { root := Node.dir [], handles := [(2, Node.file [10, 11, 12])], nextHandle := 3 }

def stEmptyDemo : HostState :=
  { capabilities := [], fuel_remaining := 10000, nextCapIndex := 1 }

def fsEmptyDemo : RamFs :=
  { root := Node.dir [], handles := [], nextHandle := 1 }

def capStaleGen : Capability :=
  { id := ⟨9, 0⟩, rights := CapabilityRights.READ,
    object := CapabilityType.File 2, generation := 5 }

def stStaleGen : HostState :=
  { capabilities := [(⟨9, 0⟩, capStaleGen)], fuel_remaining := 10000,
    nextCapIndex := 1 }

/-- C2 counterexample: `sp_fs_close` never returns −1.  For an id that is
absent it returns unit and does nothing; for an id whose generation does
not match the stored capability's generation it still returns unit and even
removes the entry and closes the underlying handle (its removal goes
through `capabilities.remove`, which ignores the generation check). -/
theorem sp_fs_close_stale_returns_unit :
    stEmptyDemo.get_capability (CapId.from_u64 0) = none ∧
    sp_fs_close stEmptyDemo fsEmptyDemo 0 =
      Except.ok ((), { stEmptyDemo with fuel_remaining := 9990 }, fsEmptyDemo) ∧
    stStaleGen.get_capability (CapId.from_u64 9) = none ∧
    sp_fs_close stStaleGen fsDemoFile 9 =
      Except.ok ((),
        { capabilities := [], fuel_remaining := 9990, nextCapIndex := 1 },
        { root := Node.dir [], handles := [], nextHandle := 3 }) :=
  ⟨rfl, rfl, rfl, rfl⟩

/-- C2 amended: for a stale `CapId` (absent, or generation mismatch — both
are exactly `get_capability = none`), every capability-taking `sp_fs_*`,
`sp_mutex_*` and `sp_sem_*` host function returns −1 (`CAP_NOT_FOUND`) —
except `sp_fs_close`, which has no return value: it returns unit without
signalling any error. -/
theorem stale_cap_rejected
    (st : HostState) (fs : RamFs) (mem : GuestMem) (mreg : MutexRegistry)
    (sreg : SemRegistry) (rawId : Nat) (path : List Char)
    (bufPtr bufLen offset : Nat)
    (hfuel : 600 ≤ st.fuel_remaining)
    (hstale : st.get_capability (CapId.from_u64 rawId) = none) :
    sp_fs_open st fs rawId path = Except.ok (CAP_NOT_FOUND,
      { st with fuel_remaining := st.fuel_remaining - FS_OPERATION_COST }, fs) ∧
    sp_fs_read st fs mem rawId bufPtr bufLen offset = Except.ok (CAP_NOT_FOUND,
      { st with fuel_remaining := st.fuel_remaining - FS_OPERATION_COST }, mem) ∧
    sp_fs_size st fs rawId = Except.ok (CAP_NOT_FOUND,
      { st with fuel_remaining := st.fuel_remaining - CAP_LOOKUP_COST }) ∧
    sp_fs_mkdir st fs rawId path = Except.ok (CAP_NOT_FOUND,
      { st with fuel_remaining := st.fuel_remaining - FS_OPERATION_COST }, fs) ∧
    sp_mutex_lock st mreg rawId = Except.ok (CAP_NOT_FOUND,
      { st with fuel_remaining := st.fuel_remaining - SYNC_OPERATION_COST },
      mreg, none) ∧
    sp_mutex_try_lock st mreg rawId = Except.ok (CAP_NOT_FOUND,
      { st with fuel_remaining := st.fuel_remaining - SYNC_OPERATION_COST },
      mreg, none) ∧
    sp_mutex_unlock st mreg rawId = Except.ok (CAP_NOT_FOUND,
      { st with fuel_remaining := st.fuel_remaining - SYNC_OPERATION_COST },
      mreg, none) ∧
    sp_sem_acquire st sreg rawId = Except.ok (CAP_NOT_FOUND,
      { st with fuel_remaining := st.fuel_remaining - SYNC_OPERATION_COST }, sreg) ∧
    sp_sem_try_acquire st sreg rawId = Except.ok (CAP_NOT_FOUND,
      { st with fuel_remaining := st.fuel_remaining - SYNC_OPERATION_COST }, sreg) ∧
    sp_sem_release st sreg rawId = Except.ok (CAP_NOT_FOUND,
      { st with fuel_remaining := st.fuel_remaining - SYNC_OPERATION_COST },
      sreg, none) ∧
    (∃ (st' : HostState) (fs' : RamFs),
      sp_fs_close st fs rawId = Except.ok ((), st', fs')) := by
  have hckF : check_fuel st FS_OPERATION_COST = Except.ok
      { st with fuel_remaining := st.fuel_remaining - FS_OPERATION_COST } :=
    check_fuel_ok st _ (by simp only [YIELD_THRESHOLD, FS_OPERATION_COST]; omega)
  have hckC : check_fuel st CAP_LOOKUP_COST = Except.ok
      { st with fuel_remaining := st.fuel_remaining - CAP_LOOKUP_COST } :=
    check_fuel_ok st _ (by simp only [YIELD_THRESHOLD, CAP_LOOKUP_COST]; omega)
  have hckS : check_fuel st SYNC_OPERATION_COST = Except.ok
      { st with fuel_remaining := st.fuel_remaining - SYNC_OPERATION_COST } :=
    check_fuel_ok st _ (by simp only [YIELD_THRESHOLD, SYNC_OPERATION_COST]; omega)
  have hstF : HostState.get_capability
      { st with fuel_remaining := st.fuel_remaining - FS_OPERATION_COST }
      (CapId.from_u64 rawId) = none := hstale
  have hstC : HostState.get_capability
      { st with fuel_remaining := st.fuel_remaining - CAP_LOOKUP_COST }
      (CapId.from_u64 rawId) = none := hstale
  have hstS : HostState.get_capability
      { st with fuel_remaining := st.fuel_remaining - SYNC_OPERATION_COST }
      (CapId.from_u64 rawId) = none := hstale
  refine ⟨?_, ?_, ?_, ?_, ?_, ?_, ?_, ?_, ?_, ?_, ?_⟩
  · unfold sp_fs_open
    rw [hckF]
    dsimp only
    rw [hstF]
  · unfold sp_fs_read
    rw [hckF]
    dsimp only
    rw [hstF]
  · unfold sp_fs_size
    rw [hckC]
    dsimp only
    rw [hstC]
  · unfold sp_fs_mkdir
    rw [hckF]
    dsimp only
    rw [hstF]
  · unfold sp_mutex_lock
    rw [hckS]
    dsimp only
    rw [hstS]
  · unfold sp_mutex_try_lock
    rw [hckS]
    dsimp only
    rw [hstS]
  · unfold sp_mutex_unlock
    rw [hckS]
    dsimp only
    rw [hstS]
  · unfold sp_sem_acquire
    rw [hckS]
    dsimp only
    rw [hstS]
  · unfold sp_sem_try_acquire
    rw [hckS]
    dsimp only
    rw [hstS]
  · unfold sp_sem_release
    rw [hckS]
    dsimp only
    rw [hstS]
  · unfold sp_fs_close
    rw [hckC]
    dsimp only
    rcases hget : alistGet st.capabilities (CapId.from_u64 rawId) with _ | cap
    · exact ⟨_, _, rfl⟩
    · rcases cap with ⟨cid, crights, cobj, cgen⟩
      cases cobj <;> exact ⟨_, _, rfl⟩

/-- C2 witness: the amended theorem applied to an empty capability table
and the raw id 0. -/
theorem stale_cap_rejected_witness :
    600 ≤ stEmptyDemo.fuel_remaining ∧
    stEmptyDemo.get_capability (CapId.from_u64 0) = none ∧
    sp_fs_size stEmptyDemo fsEmptyDemo 0 = Except.ok (CAP_NOT_FOUND,
      { stEmptyDemo with
        fuel_remaining := stEmptyDemo.fuel_remaining - CAP_LOOKUP_COST }) ∧
    sp_mutex_lock stEmptyDemo mutexDemoReg 0 = Except.ok (CAP_NOT_FOUND,
      { stEmptyDemo with
        fuel_remaining := stEmptyDemo.fuel_remaining - SYNC_OPERATION_COST },
      mutexDemoReg, none) :=
  ⟨by decide, by decide,
   (stale_cap_rejected stEmptyDemo fsEmptyDemo [] mutexDemoReg
     { entries := [], nextId := 1 } 0 [] 0 0 0 (by decide) (by decide)).2.2.1,
   (stale_cap_rejected stEmptyDemo fsEmptyDemo [] mutexDemoReg
     { entries := [], nextId := 1 } 0 [] 0 0 0 (by decide) (by decide)).2.2.2.2.1⟩

/-! ## Claim C7 — `RamFs::read` bounds behaviour -/

/-- C7: for an open handle to a file, reading at an offset at or past the
content length returns `Ok 0` (never an error); otherwise the read returns
`Ok (min buffer.length (content.length - offset))` with exactly that many
bytes copied from the content (starting at the offset) into the buffer's
prefix, the rest of the buffer unchanged; a zero-length buffer reads 0. -/
theorem ramfs_read_spec (fs : RamFs) (h : Nat) (content buffer : List Nat)
    (offset : Nat) (hh : alistGet fs.handles h = some (Node.file content)) :
    (content.length ≤ offset → fs.read h buffer offset = Except.ok (0, buffer)) ∧
    (offset < content.length →
      fs.read h buffer offset =
        Except.ok (min buffer.length (content.length - offset),
          (content.drop offset).take (min buffer.length (content.length - offset)) ++
            buffer.drop (min buffer.length (content.length - offset)))) ∧
    fs.read h [] offset = Except.ok (0, []) := by
  refine ⟨?_, ?_, ?_⟩
  · intro hle
    unfold RamFs.read
    rw [hh]
    dsimp only
    rw [if_pos (by omega)]
  · intro hlt
    unfold RamFs.read
    rw [hh]
    dsimp only
    rw [if_neg (by omega)]
    have harith : min (offset + buffer.length) content.length - offset =
        min buffer.length (content.length - offset) := by omega
    rw [harith]
  · unfold RamFs.read
    rw [hh]
    dsimp only
    by_cases hle : offset ≥ content.length
    · rw [if_pos hle]
    · rw [if_neg hle]
      have h0 : min (offset + List.length ([] : List Nat)) content.length - offset = 0 := by
        simp only [List.length_nil]
        omega
      rw [h0]
      simp

/-- C7 witness: the theorem applied to a 3-byte file, offset 1, 2-byte
buffer — 2 bytes are read, and a past-EOF offset returns 0. -/
theorem ramfs_read_spec_witness :
    alistGet fsDemoFile.handles 2 = some (Node.file [10, 11, 12]) ∧
    fsDemoFile.read 2 [0, 0] 5 = Except.ok (0, [0, 0]) ∧
    fsDemoFile.read 2 [0, 0] 1 =
      Except.ok (min 2 (3 - 1),
        (([10, 11, 12] : List Nat).drop 1).take (min 2 (3 - 1)) ++
          ([0, 0] : List Nat).drop (min 2 (3 - 1))) ∧
    fsDemoFile.read 2 [] 1 = Except.ok (0, []) :=
  ⟨rfl,
   (ramfs_read_spec fsDemoFile 2 [10, 11, 12] [0, 0] 5 rfl).1 (by decide),
   (ramfs_read_spec fsDemoFile 2 [10, 11, 12] [0, 0] 1 rfl).2.1 (by decide),
   (ramfs_read_spec fsDemoFile 2 [10, 11, 12] [] 1 rfl).2.2⟩

/-! ## Claim C9 — `sp_fs_size` needs no rights -/

/-- C9: `sp_fs_size` on any live capability whose object is a File or a
Directory returns the node's size — content length for files, 0 for
directories — with no constraint at all on the capability's rights. -/
theorem sp_fs_size_any_rights
    (st : HostState) (fs : RamFs) (rawId : Nat) (cap : Capability) (v : Nat)
    (node : Node)
    (hfuel : 600 ≤ st.fuel_remaining)
    (hcap : st.get_capability (CapId.from_u64 rawId) = some cap)
    (hobj : cap.object = CapabilityType.File v ∨
      cap.object = CapabilityType.Directory v)
    (hnode : alistGet fs.handles (v % 2 ^ 32) = some node) :
    sp_fs_size st fs rawId =
      Except.ok (toI32 node.sizeOf,
        { st with fuel_remaining := st.fuel_remaining - CAP_LOOKUP_COST }) ∧
    (node.sizeOf < 2 ^ 31 → toI32 node.sizeOf = (node.sizeOf : Int)) ∧
    (∀ c : List Nat, Node.sizeOf (Node.file c) = c.length) ∧
    (∀ es : List (FsName × Node), Node.sizeOf (Node.dir es) = 0) := by
  have hck : check_fuel st CAP_LOOKUP_COST = Except.ok
      { st with fuel_remaining := st.fuel_remaining - CAP_LOOKUP_COST } :=
    check_fuel_ok st _ (by simp only [YIELD_THRESHOLD, CAP_LOOKUP_COST]; omega)
  have hcap1 : HostState.get_capability
      { st with fuel_remaining := st.fuel_remaining - CAP_LOOKUP_COST }
      (CapId.from_u64 rawId) = some cap := hcap
  have hsz : fs.size (v % 2 ^ 32) = Except.ok node.sizeOf := by
    unfold RamFs.size
    rw [hnode]
  refine ⟨?_, fun hsmall => toI32_small _ hsmall, fun c => rfl, fun es => rfl⟩
  rcases hobj with hobj | hobj <;>
    (unfold sp_fs_size
     rw [hck]
     dsimp only
     rw [hcap1]
     dsimp only
     rw [hobj]
     dsimp only
     rw [hsz])

def capSizeDemo : Capability :=
  { id := ⟨6, 0⟩, rights := CapabilityRights.NONE,
    object := CapabilityType.File 2, generation := 0 }

def stSizeDemo : HostState :=
  { capabilities := [(⟨6, 0⟩, capSizeDemo)], fuel_remaining := 10000,
    nextCapIndex := 70 }

/-- C9 witness: a file capability carrying no rights at all still gets the
file's size (3 bytes). -/
theorem sp_fs_size_any_rights_witness :
    600 ≤ stSizeDemo.fuel_remaining ∧
    stSizeDemo.get_capability (CapId.from_u64 6) = some capSizeDemo ∧
    capSizeDemo.object = CapabilityType.File 2 ∧
    alistGet fsDemoFile.handles (2 % 2 ^ 32) = some (Node.file [10, 11, 12]) ∧
    sp_fs_size stSizeDemo fsDemoFile 6 =
      Except.ok (toI32 (Node.file [10, 11, 12]).sizeOf,
        { stSizeDemo with
          fuel_remaining := stSizeDemo.fuel_remaining - CAP_LOOKUP_COST }) :=
  ⟨by decide, by decide, by decide, rfl,
   (sp_fs_size_any_rights stSizeDemo fsDemoFile 6 capSizeDemo 2
     (Node.file [10, 11, 12]) (by decide) (by decide) (Or.inl (by decide)) rfl).1⟩

/-! ## Claim C6 — executor queue/map agreement -/

/-- A task whose first poll parks it (stashing a waker clone, as the sync
primitives' acquire futures do) and whose second poll stashes another clone
and completes — the semaphore double-check path. -/
def tC6a : Task :=
  { id := 1, priority := Priority.Normal,
    future := [{ isReady := false, stash := true }, { isReady := true, stash := true }] }

/-- A task that simply stays pending without registering any wakeup. -/
def tC6b : Task :=
  { id := 2, priority := Priority.High,
    future := [{ isReady := false, stash := false }] }

def c6s2 : ExecState :=
  run_ready_tasks 8 (Executor.spawn (Executor.spawn execInitial tC6a) tC6b)

def c6s4 : ExecState := run_ready_tasks 8 (wakeTask c6s2 1 Priority.Normal)

def c6s5 : ExecState := wakeTask c6s4 1 Priority.Normal

/-- C6 counterexample: a reachable executor state in which (i) id 1 sits in
the Normal queue although it is no longer a key of the task map (its
stale escaped waker fired after the task completed — exactly the situation
`run_ready_tasks` skips with its "task no longer exists" branch), and (ii)
id 2 is in the map (pending) but in no queue (it was polled Pending and
never woken).  Both directions of the claimed queue/map agreement fail. -/
theorem executor_queue_map_disagree :
    ExecReach c6s5 ∧
    1 ∈ allQueueIds c6s5 ∧ alistGet c6s5.tasks 1 = none ∧
    alistGet c6s5.tasks 2 ≠ none ∧ ¬ 2 ∈ allQueueIds c6s5 ∧
    ¬ queuesAgreeWithTasks c6s5 := by
  refine ⟨?_, by decide, by decide, by decide, by decide, ?_⟩
  · exact ExecReach.wakeStep 1 Priority.Normal
      (ExecReach.runStep 8 (ExecReach.wakeStep 1 Priority.Normal
        (ExecReach.runStep 8 (ExecReach.spawnStep tC6b
          (ExecReach.spawnStep tC6a ExecReach.start))) (by decide))) (by decide)
  · intro hagree
    exact (hagree.1 1 (by decide)) (by decide)

/-- C6 amended: in every reachable executor state, every task id in any of
the four priority queues was previously spawned — but the queues may hold
stale ids of tasks already removed from the map (skipped by
`run_ready_tasks`), and a pending task need not appear in any queue until
woken; and a spawn whose priority queue is full leaves the task map
unchanged (the task is dropped). -/
theorem executor_spawned_invariant (s : ExecState) (hs : ExecReach s) :
    (∀ tid, tid ∈ allQueueIds s → tid ∈ s.spawned) ∧
    (∀ t : Task, ¬ (s.queues.get t.priority).length < QUEUE_CAPACITY →
      (Executor.spawn s t).tasks = s.tasks) := by
  refine ⟨(execInv_reach hs).1, ?_⟩
  intro t hfull
  unfold Executor.spawn
  by_cases hdup : (alistGet s.tasks t.id).isSome = true
  · simp only [hdup, if_true]
  · simp only [hdup, if_false]
    have hpush : (s.queues.push t.priority t.id).2 = false := by
      unfold TaskQueues.push
      rw [if_neg hfull]
    rw [hpush]
    simp only [Bool.false_eq_true, if_false]
    rw [alistRemove_set_self]
    exact alistRemove_of_not_mem _ _ (Option.not_isSome_iff_eq_none.mp hdup)

/-- C6 witness for the amended theorem: after one spawn on a fresh
executor, the queued id 1 is recorded as spawned. -/
theorem executor_spawned_invariant_witness :
    1 ∈ allQueueIds (Executor.spawn execInitial tC6a) ∧
    1 ∈ (Executor.spawn execInitial tC6a).spawned :=
  ⟨by decide,
   (executor_spawned_invariant _
     (ExecReach.spawnStep tC6a ExecReach.start)).1 1 (by decide)⟩

/-! ## Claim C8 — capability-table marshalling -/

/-- C8: `sp_get_capabilities` returns `BUFFER_TOO_SMALL` (−8) when the
guest-supplied length is below 16 bytes per table entry; otherwise (with
the target range in bounds) it writes one 16-byte little-endian packed
record `{u64 id, u32 type, u32 rights}` per capability — with type tags
File = 0, Directory = 1, Mutex = 2, Semaphore = 3 and 255 for every other
object kind — and returns the number of capabilities written. -/
theorem sp_get_capabilities_spec
    (st : HostState) (mem : GuestMem) (ptr len : Nat)
    (hfuel : 600 + MEMORY_IO_COST * st.capabilities.length ≤ st.fuel_remaining)
    (hcount : st.capabilities.length < 2 ^ 31)
    (hbounds : ptr + 16 * st.capabilities.length ≤ mem.length) :
    (len < st.capabilities.length * 16 →
      ∃ st' : HostState, sp_get_capabilities st mem ptr len =
        Except.ok (BUFFER_TOO_SMALL, st', mem)) ∧
    (st.capabilities.length * 16 ≤ len →
      ∃ st' : HostState, sp_get_capabilities st mem ptr len =
        Except.ok ((st.capabilities.length : Int), st',
          spliceAt mem ptr
            (((st.capabilities.map (fun p => p.2)).map capRecord).flatten))) ∧
    (∀ v : Nat, typeTag (CapabilityType.File v) = 0 ∧
      typeTag (CapabilityType.Directory v) = 1 ∧
      typeTag (CapabilityType.Mutex v) = 2 ∧
      typeTag (CapabilityType.Semaphore v) = 3) ∧
    (∀ a b : Nat, typeTag (CapabilityType.Memory a b) = 255) ∧
    (∀ p : Nat, typeTag (CapabilityType.Serial p) = 255) ∧
    typeTag CapabilityType.Timer = 255 ∧
    (∀ i : Nat, typeTag (CapabilityType.Interrupt i) = 255) ∧
    (∀ n : Nat, typeTag (CapabilityType.Network n) = 255) ∧
    (∀ cap : Capability, (capRecord cap).length = 16 ∧
      capRecord cap = leBytes 8 cap.id.as_u64 ++ leBytes 4 (typeTag cap.object) ++
        leBytes 4 cap.rights.bits) := by
  have hmaplen : (st.capabilities.map (fun p => p.2)).length =
      st.capabilities.length := List.length_map _ _
  have hckC : check_fuel st CAP_LOOKUP_COST = Except.ok
      { st with fuel_remaining := st.fuel_remaining - CAP_LOOKUP_COST } :=
    check_fuel_ok st _ (by simp only [YIELD_THRESHOLD, CAP_LOOKUP_COST]; omega)
  refine ⟨?_, ?_, fun v => ⟨rfl, rfl, rfl, rfl⟩, fun a b => rfl, fun p => rfl, rfl,
    fun i => rfl, fun n => rfl, fun cap => ⟨capRecord_length cap, rfl⟩⟩
  · intro hlt
    unfold sp_get_capabilities
    rw [hckC]
    dsimp only
    rw [if_pos (by rw [hmaplen]; exact hlt)]
    exact ⟨_, rfl⟩
  · intro hge
    unfold sp_get_capabilities
    rw [hckC]
    dsimp only
    rw [if_neg (by rw [hmaplen]; omega)]
    have hck2 : check_fuel
        { capabilities := st.capabilities,
          fuel_remaining := st.fuel_remaining - CAP_LOOKUP_COST,
          nextCapIndex := st.nextCapIndex }
        (MEMORY_IO_COST * (st.capabilities.map (fun p => p.2)).length) =
        Except.ok
          { capabilities := st.capabilities,
            fuel_remaining := st.fuel_remaining - CAP_LOOKUP_COST -
              MEMORY_IO_COST * (st.capabilities.map (fun p => p.2)).length,
            nextCapIndex := st.nextCapIndex } :=
      check_fuel_ok _ _
        (by simp only [hmaplen, YIELD_THRESHOLD, CAP_LOOKUP_COST]; omega)
    rw [hck2]
    dsimp only
    rw [writeCaps_ok _ _ _ (by rw [hmaplen]; exact hbounds)]
    dsimp only
    rw [hmaplen, toI32_small _ hcount]
    exact ⟨_, rfl⟩

def capGetDemo : Capability :=
  { id := ⟨2, 1⟩, rights := ⟨true, true, false, false, false⟩,
    object := CapabilityType.File 3, generation := 1 }

def stGetDemo : HostState :=
  { capabilities := [(⟨2, 1⟩, capGetDemo)], fuel_remaining := 10000,
    nextCapIndex := 80 }

/-- C8 witness: one capability marshalled into a 32-byte guest memory at
offset 4, and the too-small branch at length 15. -/
theorem sp_get_capabilities_spec_witness :
    600 + MEMORY_IO_COST * stGetDemo.capabilities.length ≤
      stGetDemo.fuel_remaining ∧
    stGetDemo.capabilities.length < 2 ^ 31 ∧
    4 + 16 * stGetDemo.capabilities.length ≤ (List.replicate 32 0).length ∧
    (∃ st' : HostState,
      sp_get_capabilities stGetDemo (List.replicate 32 0) 4 15 =
        Except.ok (BUFFER_TOO_SMALL, st', List.replicate 32 0)) ∧
    (∃ st' : HostState,
      sp_get_capabilities stGetDemo (List.replicate 32 0) 4 16 =
        Except.ok ((stGetDemo.capabilities.length : Int), st',
          spliceAt (List.replicate 32 0) 4
            (((stGetDemo.capabilities.map (fun p => p.2)).map capRecord).flatten))) :=
  ⟨by decide, by decide, by decide,
   (sp_get_capabilities_spec stGetDemo (List.replicate 32 0) 4 15
     (by decide) (by decide) (by decide)).1 (by decide),
   (sp_get_capabilities_spec stGetDemo (List.replicate 32 0) 4 16
     (by decide) (by decide) (by decide)).2.1 (by decide)⟩

/-- C10 witness: the theorem applied to a concrete live mutex capability. -/
theorem sp_mutex_unlock_no_frame_effect_witness :
    600 ≤ stMutexA.fuel_remaining ∧
    stMutexA.get_capability (CapId.from_u64 3) = some capMutexA ∧
    capMutexA.object = CapabilityType.Mutex 1 ∧
    capMutexA.rights.call = true ∧
    (alistGet mutexDemoReg.entries 1).isSome = true ∧
    sp_mutex_unlock stMutexA mutexDemoReg 3 =
      Except.ok (0,
        { stMutexA with fuel_remaining := stMutexA.fuel_remaining - SYNC_OPERATION_COST },
        mutexDemoReg, none) :=
  ⟨by decide, by decide, by decide, by decide, by decide,
   sp_mutex_unlock_no_frame_effect stMutexA mutexDemoReg 3 capMutexA 1
     (by decide) (by decide) (by decide) (by decide) (by decide)⟩

end SovelmaOS
